import Mathlib

set_option maxRecDepth 100000

/-!
Shallow embedding of `src/server.js` (MILK-STATUS-2): a single-collection
bill-record service (create / list / search / delete) backed by a document
store.  JavaScript numbers are modelled as rationals (`ℚ`); NaN is modelled
by `Option.none`.  The external date parser (`new Date(string)`) is not part
of the repository, so every operation is parameterised over an arbitrary
parser `pd : String → Option Int` (a millisecond timestamp, `none` =
Invalid Date).
-/

namespace Milk

/-- A JSON-ish value as seen by the handler when it reads a field of
`req.body`: an absent field reads as `undefined`; JSON supplies `null`,
strings and numbers.  (Booleans/arrays/objects are omitted: no claim
touches them.) -/
inductive JSValue where
  | undefined
  | null
  | str (s : String)
  | num (q : ℚ)
deriving DecidableEq

/-- JavaScript `String(q)` for a number, used only when a numeric payload
reaches a text field.  Integral values render as in JS; for non-integral
values we use a `num/den` rendering — it agrees with JS on everything any
claim depends on (the rendering of a non-integral number is never ten
digits, in JS or here). -/
def ratToJsString (q : ℚ) : String :=
  if q.den = 1 then toString q.num else toString q.num ++ "/" ++ toString q.den

/-- JavaScript `String(v)` as applied by the handler to `Name`/`Mobile`
(`src/server.js` lines 76-77): `String(undefined) = "undefined"`,
`String(null) = "null"`. -/
def jsString : JSValue → String
  | .undefined => "undefined"
  | .null => "null"
  | .str s => s
  | .num q => ratToJsString q

/-- JavaScript whitespace accepted by `parseFloat` (ASCII part). -/
def isJsWs (c : Char) : Bool :=
  c = ' ' || c = '\t' || c = '\n' || c = '\r' || c = '\x0b' || c = '\x0c'

/-- Decimal digits to a natural number, most significant first. -/
def digitsToNat (ds : List Char) : Nat :=
  ds.foldl (fun a c => 10 * a + (c.toNat - 48)) 0

/-- ECMAScript `parseFloat` on a string: skip leading whitespace, optional
sign, then the longest prefix shaped `digits [. digits] [e|E [sign] digits]`;
any trailing garbage is ignored; if no digit is found the result is NaN
(`none`).  (The `Infinity` literal is not modelled; no claim involves it.) -/
def parseFloatStr (s : String) : Option ℚ :=
  let cs0 := s.toList.dropWhile isJsWs
  let sgn : ℚ := match cs0 with
    | '-' :: _ => -1
    | _ => 1
  let cs := match cs0 with
    | '-' :: t => t
    | '+' :: t => t
    | t => t
  let ip := cs.takeWhile Char.isDigit
  let cs1 := cs.dropWhile Char.isDigit
  let fp := match cs1 with
    | '.' :: t => t.takeWhile Char.isDigit
    | _ => []
  let cs2 := match cs1 with
    | '.' :: t => t.dropWhile Char.isDigit
    | t => t
  if ip.isEmpty && fp.isEmpty then none
  else
    let mant : ℚ := (digitsToNat ip : ℚ) + (digitsToNat fp : ℚ) / ((10 : ℚ) ^ fp.length)
    let expv : Int := match cs2 with
      | 'e' :: '-' :: t =>
          let ds := t.takeWhile Char.isDigit
          if ds.isEmpty then 0 else -(digitsToNat ds : Int)
      | 'e' :: '+' :: t =>
          let ds := t.takeWhile Char.isDigit
          if ds.isEmpty then 0 else (digitsToNat ds : Int)
      | 'e' :: t =>
          let ds := t.takeWhile Char.isDigit
          if ds.isEmpty then 0 else (digitsToNat ds : Int)
      | 'E' :: '-' :: t =>
          let ds := t.takeWhile Char.isDigit
          if ds.isEmpty then 0 else -(digitsToNat ds : Int)
      | 'E' :: '+' :: t =>
          let ds := t.takeWhile Char.isDigit
          if ds.isEmpty then 0 else (digitsToNat ds : Int)
      | 'E' :: t =>
          let ds := t.takeWhile Char.isDigit
          if ds.isEmpty then 0 else (digitsToNat ds : Int)
      | _ => 0
    some (sgn * mant * (10 : ℚ) ^ expv)

/-- `parseFloat(v)` on an arbitrary payload value: numbers pass through
(ToString followed by re-parsing is the identity on them); `undefined` and
`null` stringify to non-numeric text, hence NaN. -/
def parseFloatJS : JSValue → Option ℚ
  | .undefined => none
  | .null => none
  | .str s => parseFloatStr s
  | .num q => some q

/-- The result of `new Date(v)` (`src/server.js` line 78) as a millisecond
timestamp, `none` meaning Invalid Date: `new Date(undefined)` is invalid,
`new Date(null)` is the epoch, a numeric argument is truncated toward zero,
and a string is handed to the ambient date parser `pd`.  (Range clipping of
huge timestamps is not modelled; no claim involves it.) -/
def jsDate (pd : String → Option Int) : JSValue → Option Int
  | .undefined => none
  | .null => some 0
  | .num q => some (q.num / q.den)
  | .str s => pd s

/-- A stored bill document: the fields of the Mongoose `Bill` schema
(`src/server.js` lines 22-58), with the store-assigned `_id` modelled as a
natural number. -/
structure Bill where
  id : Nat
  Name : String
  Mobile : String
  Date : Int
  Morning : ℚ
  Evening : ℚ
  Rate : ℚ
  TotalLiters : ℚ
  TotalAmount : ℚ
  CreatedAt : Int
deriving DecidableEq

/-- The persisted collection plus the store's id generator. -/
structure Store where
  bills : List Bill
  nextId : Nat
deriving DecidableEq

/-- The raw `req.body` of a create request.  `TotalLiters`/`TotalAmount`
may be present in the payload; the handler never reads them. -/
structure Request where
  Name : JSValue
  Mobile : JSValue
  Date : JSValue
  Morning : JSValue
  Evening : JSValue
  Rate : JSValue
  TotalLiters : JSValue
  TotalAmount : JSValue
deriving DecidableEq

/-- The coerced values computed at `src/server.js` lines 76-81. -/
structure Coerced where
  name : String
  mobile : String
  date : Option Int
  morning : Option ℚ
  evening : Option ℚ
  rate : Option ℚ
deriving DecidableEq

def coerce (pd : String → Option Int) (r : Request) : Coerced :=
  { name := jsString r.Name
    mobile := jsString r.Mobile
    date := jsDate pd r.Date
    morning := parseFloatJS r.Morning
    evening := parseFloatJS r.Evening
    rate := parseFloatJS r.Rate }

/-- The handler's own guard (`src/server.js` line 84):
`!name || !mobile || !date || isNaN(morning) || isNaN(evening) || isNaN(rate)`.
A string is falsy exactly when empty; `date` is a `Date` object and objects
are always truthy, so the `!date` disjunct never fires and is omitted. -/
def handlerRejects (c : Coerced) : Bool :=
  c.name == "" || c.mobile == "" || c.morning.isNone || c.evening.isNone || c.rate.isNone

/-- Mobile validator of the schema: `/^\d{10}$/.test(v)`. -/
def isTenDigits (s : String) : Bool :=
  s.length == 10 && s.toList.all Char.isDigit

/-- Mongoose validation run by `bill.save()` against the schema
(`src/server.js` lines 22-58): `required` on a string fails on the empty
string; `Mobile` must be ten digits; `Date` must have cast to a valid date;
`Morning`/`Evening` have `min: 0` and `Rate` has `min: 0.01`. -/
def saveValidate (c : Coerced) : Bool :=
  c.name != "" && isTenDigits c.mobile && c.date.isSome &&
  decide (0 ≤ c.morning.getD 0) && decide (0 ≤ c.evening.getD 0) &&
  decide ((1 / 100 : ℚ) ≤ c.rate.getD 0)

/-- The document assembled at `src/server.js` lines 99-107 (the `getD`
defaults are never reached: the handler guard has already ensured the
options are `some`). -/
def mkBill (id : Nat) (now : Int) (c : Coerced) : Bill :=
  { id := id
    Name := c.name
    Mobile := c.mobile
    Date := c.date.getD 0
    Morning := c.morning.getD 0
    Evening := c.evening.getD 0
    Rate := c.rate.getD 0
    TotalLiters := c.morning.getD 0 + c.evening.getD 0
    TotalAmount := (c.morning.getD 0 + c.evening.getD 0) * c.rate.getD 0
    CreatedAt := now }

inductive CreateResp where
  | created (bill : Bill)
  | badRequest (msg : String)
deriving DecidableEq

def CreateResp.status : CreateResp → Nat
  | .created _ => 201
  | .badRequest _ => 400

/-- `POST /api/bills` (`src/server.js` lines 61-122): coerce the payload,
apply the handler guard (400), then `bill.save()` — a schema validation
failure is caught and reported as 400, success appends the document and
returns 201 with the stored bill. -/
def createBill (pd : String → Option Int) (now : Int) (r : Request) (st : Store) :
    CreateResp × Store :=
  let c := coerce pd r
  if handlerRejects c then
    (.badRequest "Missing or invalid required fields", st)
  else if saveValidate c then
    let b := mkBill st.nextId now c
    (.created b, ⟨st.bills ++ [b], st.nextId + 1⟩)
  else
    (.badRequest "Bill validation failed", st)

/-!
The list and search handlers pass the raw query string to the store as a
regular-expression pattern (`$regex`, `src/server.js` lines 129-132 and
151-154) — on `Name` with the `i` option, on `Mobile` without it.  We model
the ECMAScript pattern dialect actually reachable through those handlers
with a Brzozowski-derivative matcher: literals, `.`, escapes, character
classes, `|`, and the `*`/`+`/`?` quantifiers (with lazy variants).
Constructs the model does not support (groups, anchors, brace quantifiers,
hex/unicode escapes, backreferences) make the pattern parser fail; a parser
failure is reported the way an invalid pattern is reported by the real
store: as a server error.  No claim depends on those constructs.
-/

/-- Regular expressions over characters. -/
inductive RE where
  | emp
  | eps
  | lit (c : Char)
  | dot
  | cls (neg : Bool) (ranges : List (Char × Char))
  | alt (r1 r2 : RE)
  | cat (r1 r2 : RE)
  | star (r : RE)
deriving DecidableEq

def nullable : RE → Bool
  | .emp => false
  | .eps => true
  | .lit _ => false
  | .dot => false
  | .cls _ _ => false
  | .alt a b => nullable a || nullable b
  | .cat a b => nullable a && nullable b
  | .star _ => true

/-- Character comparison, case-folded under the `i` flag. -/
def charEq (ci : Bool) (a b : Char) : Bool :=
  if ci then a.toLower == b.toLower else a == b

/-- ECMAScript `.`: any character except a line terminator. -/
def dotMatch (c : Char) : Bool :=
  !(c.toNat == 10 || c.toNat == 13 || c.toNat == 0x2028 || c.toNat == 0x2029)

def inRanges (c : Char) (ranges : List (Char × Char)) : Bool :=
  ranges.any (fun p => decide (p.1 ≤ c) && decide (c ≤ p.2))

/-- Character-class membership; under `i` a character also matches through
its case foldings. -/
def clsMatch (ci neg : Bool) (c : Char) (ranges : List (Char × Char)) : Bool :=
  let hit := inRanges c ranges ||
    (ci && (inRanges c.toLower ranges || inRanges c.toUpper ranges))
  if neg then !hit else hit

/-- Brzozowski derivative of a pattern by one character. -/
def derive (ci : Bool) : RE → Char → RE
  | .emp, _ => .emp
  | .eps, _ => .emp
  | .lit a, c => if charEq ci a c then .eps else .emp
  | .dot, c => if dotMatch c then .eps else .emp
  | .cls n rs, c => if clsMatch ci n c rs then .eps else .emp
  | .alt a b, c => .alt (derive ci a c) (derive ci b c)
  | .cat a b, c =>
      if nullable a then .alt (.cat (derive ci a c) b) (derive ci b c)
      else .cat (derive ci a c) b
  | .star r, c => .cat (derive ci r c) (.star r)

/-- Whether some prefix of the input is matched by the pattern. -/
def matchHere (ci : Bool) (r : RE) : List Char → Bool
  | [] => nullable r
  | c :: cs => nullable r || matchHere ci (derive ci r c) cs

/-- Unanchored search: whether the pattern matches somewhere in the input —
the semantics of a `$regex` / `RegExp.test` containment query. -/
def reSearch (ci : Bool) (r : RE) : List Char → Bool
  | [] => matchHere ci r []
  | c :: cs => matchHere ci r (c :: cs) || reSearch ci r cs

def digitRanges : List (Char × Char) := [('0', '9')]

def wordRanges : List (Char × Char) :=
  [('a', 'z'), ('A', 'Z'), ('0', '9'), ('_', '_')]

def spaceRanges : List (Char × Char) :=
  [(' ', ' '), ('\t', '\t'), ('\n', '\n'), ('\r', '\r'), ('\x0b', '\x0b'), ('\x0c', '\x0c')]

/-- An escape sequence `\e` in atom position.  `none` marks escapes the
model does not support (word boundaries, backreferences, hex/unicode,
control escapes). -/
def escAtom (e : Char) : Option RE :=
  if e = 'd' then some (.cls false digitRanges)
  else if e = 'D' then some (.cls true digitRanges)
  else if e = 'w' then some (.cls false wordRanges)
  else if e = 'W' then some (.cls true wordRanges)
  else if e = 's' then some (.cls false spaceRanges)
  else if e = 'S' then some (.cls true spaceRanges)
  else if e = 'n' then some (.lit '\n')
  else if e = 't' then some (.lit '\t')
  else if e = 'r' then some (.lit '\r')
  else if e = 'f' then some (.lit '\x0c')
  else if e = 'v' then some (.lit '\x0b')
  else if e.isDigit || e = 'b' || e = 'B' || e = 'x' || e = 'u' || e = 'c' ||
          e = 'k' || e = 'p' || e = 'P' then none
  else some (.lit e)

/-- An escape inside a character class, as a list of ranges. -/
def escClass (e : Char) : Option (List (Char × Char)) :=
  match escAtom e with
  | some (.cls false rs) => some rs
  | some (.lit c) => some [(c, c)]
  | _ => none

/-- Parse the body of a character class up to the closing `]`. -/
def parseCls : Nat → List Char → List (Char × Char) →
    Option (List (Char × Char) × List Char)
  | 0, _, _ => none
  | _ + 1, [], _ => none
  | fuel + 1, c :: rest, acc =>
    if c = ']' then some (acc, rest)
    else if c = '\\' then
      match rest with
      | [] => none
      | e :: rest1 =>
        match escClass e with
        | none => none
        | some rs => parseCls fuel rest1 (rs ++ acc)
    else
      match rest with
      | '-' :: b :: rest1 =>
        if b = ']' then some ((c, c) :: ('-', '-') :: acc, b :: rest1)
        else if b = '\\' then none
        else if c ≤ b then parseCls fuel rest1 ((c, b) :: acc)
        else none
      | _ => parseCls fuel rest ((c, c) :: acc)

/-- Parse one atom of the pattern.  Unsupported constructs (`(`, `)`,
anchors, brace quantifiers) and quantifiers with nothing to repeat yield
`none`. -/
def parseAtom (cs : List Char) : Option (RE × List Char) :=
  match cs with
  | [] => none
  | c :: rest =>
    if c = '.' then some (.dot, rest)
    else if c = '\\' then
      match rest with
      | [] => none
      | e :: rest1 => (escAtom e).map (fun a => (a, rest1))
    else if c = '[' then
      match rest with
      | '^' :: rest1 => (parseCls (rest1.length + 1) rest1 []).map
          (fun p => (.cls true p.1, p.2))
      | _ => (parseCls (rest.length + 1) rest []).map
          (fun p => (.cls false p.1, p.2))
    else if c = '|' || c = '(' || c = ')' || c = '*' || c = '+' || c = '?' ||
            c = '^' || c = '$' || c = '{' || c = '}' then none
    else some (.lit c, rest)

/-- Drop a lazy-quantifier marker: `*?`, `+?`, `??` denote the same
language as their greedy forms. -/
def dropLazy : List Char → List Char
  | '?' :: rest => rest
  | rest => rest

/-- Apply a following quantifier to a parsed atom, if any. -/
def applyQuant (r : RE) (cs : List Char) : RE × List Char :=
  match cs with
  | [] => (r, [])
  | c :: rest =>
    if c = '*' then (.star r, dropLazy rest)
    else if c = '+' then (.cat r (.star r), dropLazy rest)
    else if c = '?' then (.alt r .eps, dropLazy rest)
    else (r, c :: rest)

/-- Parse a sequence of quantified atoms up to `|` or the end. -/
def parseSeq : Nat → List Char → List RE → Option (List RE × List Char)
  | 0, _, _ => none
  | _ + 1, [], acc => some (acc, [])
  | fuel + 1, c :: rest, acc =>
    if c = '|' then some (acc, c :: rest)
    else
      match parseAtom (c :: rest) with
      | none => none
      | some (a, rest1) =>
        let q := applyQuant a rest1
        parseSeq fuel q.2 (acc ++ [q.1])

def mkSeq (l : List RE) : RE := l.foldr .cat .eps

/-- Parse an alternation of sequences. -/
def parseAlt : Nat → List Char → Option RE
  | 0, _ => none
  | fuel + 1, cs =>
    match parseSeq (cs.length + 1) cs [] with
    | none => none
    | some (atoms, rest) =>
      match rest with
      | [] => some (mkSeq atoms)
      | _ :: rest1 =>
        match parseAlt fuel rest1 with
        | none => none
        | some r2 => some (.alt (mkSeq atoms) r2)

/-- Compile a query string into a pattern; `none` = the pattern is invalid
(or uses a construct outside the model), which the handlers surface as a
server error. -/
def parseRE (s : String) : Option RE :=
  parseAlt (s.toList.length + 1) s.toList

/-- The filter built at `src/server.js` lines 127-134 / 150-155:
`{$or: [{Name: {$regex: query, $options: "i"}}, {Mobile: {$regex: query}}]}`. -/
def filterBills (q : String) (bills : List Bill) : Option (List Bill) :=
  match parseRE q with
  | none => none
  | some re =>
    some (bills.filter
      (fun b => reSearch true re b.Name.toList || reSearch false re b.Mobile.toList))

/-- Date-descending comparison used by `.sort({Date: -1})`. -/
def dateGe (a b : Bill) : Prop := b.Date ≤ a.Date

instance : DecidableRel dateGe := fun a b => Int.decLe b.Date a.Date

instance : IsTotal Bill dateGe := ⟨fun a b => Int.le_total b.Date a.Date⟩

instance : IsTrans Bill dateGe := ⟨fun _ _ _ hab hbc => le_trans hbc hab⟩

/-- The store's `.sort({Date: -1})`, modelled as a sort by `dateGe` (the
claims constrain only the key ordering, which any correct sort realises). -/
def sortByDateDesc (l : List Bill) : List Bill := l.insertionSort dateGe

inductive QueryResp where
  | ok (bills : List Bill)
  | badRequest
  | serverError
deriving DecidableEq

def QueryResp.status : QueryResp → Nat
  | .ok _ => 200
  | .badRequest => 400
  | .serverError => 500

/-- `GET /api/bills` (`src/server.js` lines 124-141): an absent or empty
(falsy) `query` lists everything; otherwise the query filters as a regex;
a store failure (invalid pattern) becomes a 500. -/
def listBills (q : Option String) (st : Store) : QueryResp :=
  match q with
  | none => .ok (sortByDateDesc st.bills)
  | some s =>
    if s = "" then .ok (sortByDateDesc st.bills)
    else
      match filterBills s st.bills with
      | none => .serverError
      | some l => .ok (sortByDateDesc l)

/-- `GET /api/bills/search` (`src/server.js` lines 143-161): a falsy
`query` (absent or empty) is a 400; otherwise as the filtered list. -/
def searchBills (q : Option String) (st : Store) : QueryResp :=
  match q with
  | none => .badRequest
  | some s =>
    if s = "" then .badRequest
    else
      match filterBills s st.bills with
      | none => .serverError
      | some l => .ok (sortByDateDesc l)

inductive DeleteResp where
  | deleted
  | notFound
deriving DecidableEq

def DeleteResp.status : DeleteResp → Nat
  | .deleted => 200
  | .notFound => 404

/-- `DELETE /api/bills/:id` (`src/server.js` lines 163-171):
`findByIdAndDelete` removes the document with the given id if present. -/
def deleteBill (id : Nat) (st : Store) : DeleteResp × Store :=
  if st.bills.any (fun b => b.id == id) then
    (.deleted, ⟨st.bills.eraseP (fun b => b.id == id), st.nextId⟩)
  else
    (.notFound, st)

/-- Case-insensitive-capable prefix comparison (spec side). -/
def leadMatch (ci : Bool) : List Char → List Char → Bool
  | [], _ => true
  | _ :: _, [] => false
  | a :: as, b :: bs => charEq ci a b && leadMatch ci as bs

/-- Substring containment (spec side): the needle occurs contiguously in
the haystack, case-folded when `ci` is set. -/
def containsSub (ci : Bool) (needle : List Char) : List Char → Bool
  | [] => leadMatch ci needle []
  | c :: rest => leadMatch ci needle (c :: rest) || containsSub ci needle rest

/-- The spec's matching predicate for list/search filtering: Name contains
the query as a case-insensitive substring, or Mobile contains it as a
case-sensitive substring. -/
def substrMatch (q : String) (b : Bill) : Bool :=
  containsSub true q.toList b.Name.toList || containsSub false q.toList b.Mobile.toList

/-- A query pattern character with regex meaning; queries made only of
other characters denote themselves literally. -/
def isRegexMeta (c : Char) : Bool :=
  c = '\\' || c = '.' || c = '[' || c = ']' || c = '|' || c = '(' || c = ')' ||
  c = '*' || c = '+' || c = '?' || c = '^' || c = '$' || c = '{' || c = '}'

/-- The pattern denoting a literal character sequence. -/
def litSeq (cs : List Char) : RE := mkSeq (cs.map .lit)

/-!
Equivalence of the regex matcher with plain substring containment on
metacharacter-free queries.
-/

theorem matchHere_emp (ci : Bool) : ∀ l, matchHere ci RE.emp l = false := by
  intro l
  induction l with
  | nil => rfl
  | cons c cs ih => simp [matchHere, derive, nullable, ih]

theorem matchHere_cat_emp (ci : Bool) (r : RE) :
    ∀ l, matchHere ci (RE.cat RE.emp r) l = false := by
  intro l
  induction l with
  | nil => rfl
  | cons c cs ih =>
    have hd : derive ci (RE.cat RE.emp r) c = RE.cat RE.emp r := by
      simp [derive, nullable]
    simp [matchHere, hd, ih, nullable]

theorem matchHere_alt (ci : Bool) :
    ∀ (l : List Char) (r1 r2 : RE),
      matchHere ci (RE.alt r1 r2) l = (matchHere ci r1 l || matchHere ci r2 l) := by
  intro l
  induction l with
  | nil => intro r1 r2; rfl
  | cons c cs ih =>
    intro r1 r2
    simp only [matchHere, derive, nullable, ih]
    simp [Bool.or_assoc, Bool.or_comm, Bool.or_left_comm]

theorem matchHere_cat_eps (ci : Bool) (r : RE) :
    ∀ l, matchHere ci (RE.cat RE.eps r) l = matchHere ci r l := by
  intro l
  cases l with
  | nil => simp [matchHere, nullable]
  | cons c cs =>
    have hd : derive ci (RE.cat RE.eps r) c = RE.alt (RE.cat RE.emp r) (derive ci r c) := by
      simp [derive, nullable]
    simp [matchHere, hd, nullable, matchHere_alt, matchHere_cat_emp]

theorem litSeq_cons (a : Char) (as : List Char) :
    litSeq (a :: as) = RE.cat (RE.lit a) (litSeq as) := rfl

theorem matchHere_litSeq (ci : Bool) :
    ∀ (n h : List Char), matchHere ci (litSeq n) h = leadMatch ci n h := by
  intro n
  induction n with
  | nil =>
    intro h
    cases h with
    | nil => rfl
    | cons c cs => simp [litSeq, mkSeq, matchHere, nullable, leadMatch]
  | cons a as ih =>
    intro h
    cases h with
    | nil => simp [litSeq_cons, matchHere, nullable, leadMatch]
    | cons c cs =>
      by_cases hc : charEq ci a c
      · simp [litSeq_cons, matchHere, nullable, derive, hc, matchHere_cat_eps,
          leadMatch]
        simpa [litSeq, mkSeq] using ih cs
      · simp only [Bool.not_eq_true] at hc
        simp [litSeq_cons, matchHere, nullable, derive, hc, matchHere_cat_emp,
          leadMatch]

theorem reSearch_litSeq (ci : Bool) (n : List Char) :
    ∀ h, reSearch ci (litSeq n) h = containsSub ci n h := by
  intro h
  induction h with
  | nil => simp [reSearch, containsSub, matchHere_litSeq]
  | cons c cs ih => simp [reSearch, containsSub, matchHere_litSeq, ih]

theorem parseAtom_lit (c : Char) (rest : List Char) (h : isRegexMeta c = false) :
    parseAtom (c :: rest) = some (RE.lit c, rest) := by
  simp only [isRegexMeta, Bool.or_eq_false_iff, decide_eq_false_iff_not] at h
  obtain ⟨⟨⟨⟨⟨⟨⟨⟨⟨⟨⟨⟨⟨h1, h2⟩, h3⟩, h4⟩, h5⟩, h6⟩, h7⟩, h8⟩, h9⟩, h10⟩, h11⟩,
    h12⟩, h13⟩, h14⟩ := h
  simp [parseAtom, h1, h2, h3, h4, h5, h6, h7, h8, h9, h10, h11, h12, h13, h14]

theorem applyQuant_nonQuant (r : RE) (c : Char) (rest : List Char)
    (h : isRegexMeta c = false) : applyQuant r (c :: rest) = (r, c :: rest) := by
  simp only [isRegexMeta, Bool.or_eq_false_iff, decide_eq_false_iff_not] at h
  obtain ⟨⟨⟨⟨⟨⟨⟨⟨⟨⟨⟨⟨⟨h1, h2⟩, h3⟩, h4⟩, h5⟩, h6⟩, h7⟩, h8⟩, h9⟩, h10⟩, h11⟩,
    h12⟩, h13⟩, h14⟩ := h
  simp [applyQuant, h8, h9, h10]

theorem parseSeq_lits :
    ∀ (fuel : Nat) (cs : List Char) (acc : List RE),
      cs.length < fuel → (∀ c ∈ cs, isRegexMeta c = false) →
      parseSeq fuel cs acc = some (acc ++ cs.map RE.lit, []) := by
  intro fuel
  induction fuel with
  | zero => intro cs acc h _; exact absurd h (Nat.not_lt_zero _)
  | succ fuel ih =>
    intro cs acc hlen hmeta
    cases cs with
    | nil => simp [parseSeq]
    | cons c rest =>
      have hc : isRegexMeta c = false := hmeta c (List.mem_cons_self c rest)
      have hrest : ∀ x ∈ rest, isRegexMeta x = false :=
        fun x hx => hmeta x (List.mem_cons_of_mem c hx)
      have hcne : ¬(c = '|') := by
        intro he
        rw [he] at hc
        exact absurd hc (by decide)
      have hq : applyQuant (RE.lit c) rest = (RE.lit c, rest) := by
        cases rest with
        | nil => rfl
        | cons c2 r2 =>
          exact applyQuant_nonQuant _ c2 r2 (hrest c2 (List.mem_cons_self c2 r2))
      have hlen2 : rest.length < fuel := Nat.lt_of_succ_lt_succ hlen
      simp only [parseSeq, if_neg hcne, parseAtom_lit c rest hc, hq]
      rw [ih rest (acc ++ [RE.lit c]) hlen2 hrest]
      simp

theorem parseRE_lits (s : String) (h : ∀ c ∈ s.toList, isRegexMeta c = false) :
    parseRE s = some (litSeq s.toList) := by
  unfold parseRE
  have h1 : s.toList.length < s.toList.length + 1 := Nat.lt_succ_self _
  simp only [parseAlt, parseSeq_lits (s.toList.length + 1) s.toList [] h1 h]
  simp [litSeq]

theorem filterBills_lits (q : String) (bills : List Bill)
    (h : ∀ c ∈ q.toList, isRegexMeta c = false) :
    filterBills q bills = some (bills.filter (substrMatch q)) := by
  unfold filterBills
  rw [parseRE_lits q h]
  simp only [Option.some.injEq]
  apply List.filter_congr
  intro b _
  simp [substrMatch, reSearch_litSeq]

/-!
Helper lemmas about the handlers.
-/

/-- A create request that fails the handler guard or schema validation is
answered 400 and leaves the store untouched. -/
theorem createBill_reject (pd : String → Option Int) (now : Int) (r : Request)
    (st : Store)
    (h : handlerRejects (coerce pd r) = true ∨ saveValidate (coerce pd r) = false) :
    (createBill pd now r st).1.status = 400 ∧ (createBill pd now r st).2 = st := by
  unfold createBill
  rcases h with h | h
  · simp [h, CreateResp.status]
  · by_cases hh : handlerRejects (coerce pd r) <;>
      simp [hh, h, CreateResp.status]

theorem sortByDateDesc_perm (l : List Bill) : (sortByDateDesc l).Perm l :=
  List.perm_insertionSort _ _

theorem mem_of_filterBills {s : String} {bills fl : List Bill}
    (h : filterBills s bills = some fl) : ∀ x ∈ fl, x ∈ bills := by
  unfold filterBills at h
  cases hp : parseRE s with
  | none => rw [hp] at h; cases h
  | some re =>
    rw [hp] at h
    injection h with h
    subst h
    intro x hx
    exact (List.mem_filter.1 hx).1

theorem mem_of_listBills (q : Option String) (st : Store) (l : List Bill)
    (h : listBills q st = .ok l) : ∀ x ∈ l, x ∈ st.bills := by
  cases q with
  | none =>
    simp only [listBills] at h
    injection h with h
    subst h
    intro x hx
    exact (sortByDateDesc_perm st.bills).mem_iff.1 hx
  | some s =>
    simp only [listBills] at h
    by_cases hs : s = ""
    · rw [if_pos hs] at h
      injection h with h
      subst h
      intro x hx
      exact (sortByDateDesc_perm st.bills).mem_iff.1 hx
    · rw [if_neg hs] at h
      cases hf : filterBills s st.bills with
      | none => rw [hf] at h; cases h
      | some fl =>
        rw [hf] at h
        injection h with h
        subst h
        intro x hx
        exact mem_of_filterBills hf x ((sortByDateDesc_perm fl).mem_iff.1 hx)

theorem mem_of_searchBills (q : Option String) (st : Store) (l : List Bill)
    (h : searchBills q st = .ok l) : ∀ x ∈ l, x ∈ st.bills := by
  cases q with
  | none => simp only [searchBills] at h; cases h
  | some s =>
    simp only [searchBills] at h
    by_cases hs : s = ""
    · rw [if_pos hs] at h; cases h
    · rw [if_neg hs] at h
      cases hf : filterBills s st.bills with
      | none => rw [hf] at h; cases h
      | some fl =>
        rw [hf] at h
        injection h with h
        subst h
        intro x hx
        exact mem_of_filterBills hf x ((sortByDateDesc_perm fl).mem_iff.1 hx)

/-- After erasing the first bill with a given id from a collection whose ids
are duplicate-free, no bill with that id remains. -/
theorem eraseP_id_ne (id : Nat) :
    ∀ (l : List Bill), (l.map Bill.id).Nodup →
      ∀ b2 ∈ l.eraseP (fun b => b.id == id), b2.id ≠ id := by
  intro l
  induction l with
  | nil => intro _ b2 hb2; simp [List.eraseP] at hb2
  | cons x xs ih =>
    intro hnd b2 hb2
    simp only [List.map_cons, List.nodup_cons] at hnd
    rw [List.eraseP_cons] at hb2
    by_cases hx : (x.id == id) = true
    · rw [hx] at hb2
      simp only [cond_true] at hb2
      intro he
      have hxid : x.id = id := beq_iff_eq.1 hx
      exact hnd.1 (by
        rw [hxid, ← he]
        exact List.mem_map_of_mem Bill.id hb2)
    · simp only [Bool.not_eq_true] at hx
      rw [hx] at hb2
      simp only [cond_false, List.mem_cons] at hb2
      rcases hb2 with hb2 | hb2
      · subst hb2
        intro he
        rw [he] at hx
        simp at hx
      · exact ih hnd.2 b2 hb2

theorem isTenDigits_ne_empty {s : String} (h : isTenDigits s = true) : s ≠ "" := by
  intro he
  rw [he] at h
  exact absurd h (by decide)

/-!
Concrete values used by witnesses and counterexamples.  `pdNone` is a date
parser that treats every string as unparseable; the sample requests supply
their `Date` as a numeric timestamp, which never consults the parser.
`reqEx` is the worked example of the specification.
-/

def pdNone : String → Option Int := fun _ => none

def reqEx : Request :=
  ⟨.str "Asha", .str "9876543210", .num 1000, .num 2, .num (3 / 2), .num 50,
    .undefined, .undefined⟩

def stEmpty : Store := ⟨[], 0⟩

/-- The bill stored by `reqEx` (the spec example: TotalLiters `3.5`,
TotalAmount `175`). -/
def billEx : Bill := ⟨0, "Asha", "9876543210", 1000, 2, 3 / 2, 50, 7 / 2, 175, 0⟩

def stEx : Store := ⟨[billEx], 1⟩

def billAsha : Bill := ⟨0, "Asha", "9876543210", 0, 2, 1, 50, 3, 150, 0⟩

def stOne : Store := ⟨[billAsha], 1⟩

def reqNoName : Request := { reqEx with Name := .undefined }

/-- The bill stored when the payload omits `Name`: `String(undefined)` is
the literal text `"undefined"`. -/
def billNoName : Bill :=
  ⟨0, "undefined", "9876543210", 1000, 2, 3 / 2, 50, 7 / 2, 175, 0⟩

/-!
The claims.
-/

/-- C1: every successful create stores a bill with
`TotalLiters = Morning + Evening` and
`TotalAmount = (Morning + Evening) × Rate` exactly, where Morning, Evening
and Rate are the coerced payload values; the derived fields are appended to
the store as computed and the payload's own `TotalLiters`/`TotalAmount`
fields are never read by the handler. -/
theorem create_totals_recomputed (pd : String → Option Int) (now : Int)
    (r : Request) (st : Store) (b : Bill) (st2 : Store)
    (h : createBill pd now r st = (.created b, st2)) :
    b.TotalLiters = b.Morning + b.Evening ∧
    b.TotalAmount = (b.Morning + b.Evening) * b.Rate ∧
    b.Morning = (parseFloatJS r.Morning).getD 0 ∧
    b.Evening = (parseFloatJS r.Evening).getD 0 ∧
    b.Rate = (parseFloatJS r.Rate).getD 0 ∧
    st2.bills = st.bills ++ [b] ∧
    ∀ x y, createBill pd now { r with TotalLiters := x, TotalAmount := y } st =
      createBill pd now r st := by
  unfold createBill at h
  by_cases h1 : handlerRejects (coerce pd r)
  · simp [h1] at h
  · by_cases h2 : saveValidate (coerce pd r)
    · simp only [h1, h2, if_true, if_false, Bool.false_eq_true, ite_false,
        ite_true, Prod.mk.injEq, CreateResp.created.injEq] at h
      obtain ⟨hb, hst⟩ := h
      subst hb hst
      refine ⟨rfl, rfl, rfl, rfl, rfl, rfl, fun x y => rfl⟩
    · simp [h1, h2] at h

theorem create_totals_recomputed_w :
    billEx.TotalLiters = billEx.Morning + billEx.Evening ∧
    billEx.TotalAmount = (billEx.Morning + billEx.Evening) * billEx.Rate ∧
    stEx.bills = stEmpty.bills ++ [billEx] := by
  have h := create_totals_recomputed pdNone 0 reqEx stEmpty billEx stEx
    (by with_unfolding_all decide)
  exact ⟨h.1, h.2.1, h.2.2.2.2.2.1⟩

/-- C2 counterexample: a create request whose `Name` field is absent is NOT
rejected — `String(undefined)` is the nonempty text `"undefined"`, which
passes both the handler guard and schema validation, so the request is
answered 201 and a bill named `"undefined"` is persisted. -/
theorem create_absent_name_accepted :
    createBill pdNone 0 reqNoName stEmpty = (.created billNoName, ⟨[billNoName], 1⟩) ∧
    (createBill pdNone 0 reqNoName stEmpty).1.status = 201 ∧
    reqNoName.Name = .undefined ∧
    billNoName.Name = "undefined" := by with_unfolding_all decide

/-- C2 (amended): a create request whose `Name` or `Mobile` is the empty
string, or whose `Mobile` is absent, is rejected with 400 and nothing is
persisted.  (An absent `Name` is instead coerced to the text `"undefined"`
and can be accepted.) -/
theorem create_empty_name_mobile_rejected (pd : String → Option Int) (now : Int)
    (r : Request) (st : Store)
    (h : r.Name = .str "" ∨ r.Mobile = .str "" ∨ r.Mobile = .undefined) :
    (createBill pd now r st).1.status = 400 ∧ (createBill pd now r st).2 = st := by
  apply createBill_reject
  rcases h with h | h | h
  · left; simp [handlerRejects, coerce, jsString, h]
  · left; simp [handlerRejects, coerce, jsString, h]
  · right
    simp [saveValidate, coerce, jsString, h,
      (by decide : isTenDigits "undefined" = false)]

theorem create_empty_name_mobile_rejected_w :
    (createBill pdNone 0 { reqEx with Name := .str "" } stEmpty).1.status = 400 ∧
    (createBill pdNone 0 { reqEx with Name := .str "" } stEmpty).2 = stEmpty :=
  create_empty_name_mobile_rejected pdNone 0 _ stEmpty (Or.inl rfl)

/-- C3 counterexample: the query string is interpreted as a regular
expression, not a literal substring.  The query `"."` is contained as a
substring in neither the Name nor the Mobile of the stored bill, yet both
the filtered list and the dedicated search return that bill; moreover the
query `"("` (an invalid pattern) produces a server error instead of an
empty result. -/
theorem query_regex_not_substring :
    listBills (some ".") stOne = .ok [billAsha] ∧
    searchBills (some ".") stOne = .ok [billAsha] ∧
    substrMatch "." billAsha = false ∧
    listBills (some "(") stOne = .serverError := by decide

/-- C3 (amended): for every stored collection and every non-empty query
string containing no regex metacharacter, the filtered list and the
dedicated search both return exactly the bills whose Name contains the
query as a case-insensitive substring or whose Mobile contains it as a
case-sensitive substring (in Date order), with no error when nothing
matches.  For queries with metacharacters the string is interpreted as a
regular-expression pattern instead. -/
theorem query_filters_by_substring (st : Store) (q : String) (h1 : q ≠ "")
    (h2 : ∀ c ∈ q.toList, isRegexMeta c = false) :
    listBills (some q) st = .ok (sortByDateDesc (st.bills.filter (substrMatch q))) ∧
    searchBills (some q) st = .ok (sortByDateDesc (st.bills.filter (substrMatch q))) ∧
    (sortByDateDesc (st.bills.filter (substrMatch q))).Perm
      (st.bills.filter (substrMatch q)) := by
  have hf := filterBills_lits q st.bills h2
  refine ⟨?_, ?_, sortByDateDesc_perm _⟩ <;>
    simp [listBills, searchBills, h1, hf]

theorem query_filters_by_substring_w :
    listBills (some "sha") stOne =
      .ok (sortByDateDesc (stOne.bills.filter (substrMatch "sha"))) ∧
    searchBills (some "sha") stOne =
      .ok (sortByDateDesc (stOne.bills.filter (substrMatch "sha"))) ∧
    (sortByDateDesc (stOne.bills.filter (substrMatch "sha"))).Perm
      (stOne.bills.filter (substrMatch "sha")) :=
  query_filters_by_substring stOne "sha" (by decide) (by decide)

/-- C4: listing with no query returns every stored bill, ordered by the
Date field descending (`dateGe a b` means `b.Date ≤ a.Date`, i.e. most
recent first). -/
theorem list_no_query_all_sorted (st : Store) :
    listBills none st = .ok (sortByDateDesc st.bills) ∧
    (sortByDateDesc st.bills).Perm st.bills ∧
    List.Sorted dateGe (sortByDateDesc st.bills) :=
  ⟨rfl, sortByDateDesc_perm _, List.sorted_insertionSort _ _⟩

/-- C5: deleting an identifier held by no stored bill answers 404 and
changes nothing; deleting an identifier of a stored bill (ids being
duplicate-free, as the store assigns them) answers success, removes it,
and no later list or search result contains that bill. -/
theorem delete_by_id (st : Store) (id : Nat) :
    ((∀ b ∈ st.bills, b.id ≠ id) → deleteBill id st = (.notFound, st)) ∧
    ((st.bills.map Bill.id).Nodup → ∀ b ∈ st.bills, b.id = id →
      (deleteBill id st).1 = .deleted ∧
      (∀ b2 ∈ (deleteBill id st).2.bills, b2.id ≠ id) ∧
      (∀ q l, listBills q (deleteBill id st).2 = .ok l → b ∉ l) ∧
      (∀ q l, searchBills q (deleteBill id st).2 = .ok l → b ∉ l)) := by
  constructor
  · intro h
    have hany : st.bills.any (fun b => b.id == id) = false := by
      simp only [List.any_eq_false, beq_iff_eq]
      intro b hb
      exact h b hb
    unfold deleteBill
    rw [hany]
    simp
  · intro hnd b hb hbid
    have hany : st.bills.any (fun b => b.id == id) = true :=
      List.any_eq_true.2 ⟨b, hb, by simp [hbid]⟩
    have hdel : deleteBill id st =
        (.deleted, ⟨st.bills.eraseP (fun b => b.id == id), st.nextId⟩) := by
      unfold deleteBill
      rw [hany]
      simp
    have hne : ∀ b2 ∈ (deleteBill id st).2.bills, b2.id ≠ id := by
      rw [hdel]
      exact eraseP_id_ne id st.bills hnd
    refine ⟨by rw [hdel], hne, ?_, ?_⟩
    · intro q l hl hmem
      exact hne b (mem_of_listBills q _ l hl b hmem) hbid
    · intro q l hl hmem
      exact hne b (mem_of_searchBills q _ l hl b hmem) hbid

theorem delete_by_id_w :
    deleteBill 5 stOne = (.notFound, stOne) ∧
    (deleteBill 0 stOne).1 = .deleted ∧
    (deleteBill 0 stOne).2.bills = [] :=
  ⟨(delete_by_id stOne 5).1 (by decide),
    ((delete_by_id stOne 0).2 (by decide) billAsha (by decide) rfl).1,
    by decide⟩

/-- C6: a create request whose coerced Mobile text is not exactly ten
digits is answered 400 (by the handler guard when empty, by schema
validation otherwise) and nothing is stored. -/
theorem create_bad_mobile_rejected (pd : String → Option Int) (now : Int)
    (r : Request) (st : Store) (h : isTenDigits (jsString r.Mobile) = false) :
    (createBill pd now r st).1.status = 400 ∧ (createBill pd now r st).2 = st := by
  apply createBill_reject
  right
  simp [saveValidate, coerce, h]

theorem create_bad_mobile_rejected_w :
    (createBill pdNone 0 { reqEx with Mobile := .str "12345" } stEmpty).1.status = 400 ∧
    (createBill pdNone 0 { reqEx with Mobile := .str "12345" } stEmpty).2 = stEmpty :=
  create_bad_mobile_rejected pdNone 0 _ stEmpty (by decide)

/-- C7: a create request whose coerced Rate is ≤ 0, or whose coerced
Morning or Evening is < 0, is answered 400 (schema minimums `0.01` and `0`)
and nothing is stored. -/
theorem create_bad_numbers_rejected (pd : String → Option Int) (now : Int)
    (r : Request) (st : Store) (q : ℚ)
    (h : (parseFloatJS r.Rate = some q ∧ q ≤ 0) ∨
         (parseFloatJS r.Morning = some q ∧ q < 0) ∨
         (parseFloatJS r.Evening = some q ∧ q < 0)) :
    (createBill pd now r st).1.status = 400 ∧ (createBill pd now r st).2 = st := by
  apply createBill_reject
  right
  rw [Bool.eq_false_iff]
  intro htrue
  simp only [saveValidate, coerce, Bool.and_eq_true, bne_iff_ne,
    decide_eq_true_eq] at htrue
  obtain ⟨⟨⟨⟨⟨-, -⟩, -⟩, hmorn⟩, heven⟩, hrate⟩ := htrue
  rcases h with ⟨hp, hq⟩ | ⟨hp, hq⟩ | ⟨hp, hq⟩
  · rw [hp, Option.getD_some] at hrate
    linarith
  · rw [hp, Option.getD_some] at hmorn
    linarith
  · rw [hp, Option.getD_some] at heven
    linarith

theorem create_bad_numbers_rejected_w :
    (createBill pdNone 0 { reqEx with Rate := .num 0 } stEmpty).1.status = 400 ∧
    (createBill pdNone 0 { reqEx with Rate := .num 0 } stEmpty).2 = stEmpty :=
  create_bad_numbers_rejected pdNone 0 _ stEmpty 0 (Or.inl ⟨rfl, le_refl 0⟩)

/-- C8 counterexample: a supplied query that matches no stored bill does
NOT always return an empty success array.  The query `"("` is contained in
no field of the stored bill (and, as a pattern, matches no bill either),
yet the dedicated search answers with a server error (500, the handler's
catch branch around the store call), not an empty 200 array. -/
theorem search_invalid_pattern_not_empty :
    substrMatch "(" billAsha = false ∧
    searchBills (some "(") stOne = .serverError ∧
    searchBills (some "(") stOne ≠ .ok [] ∧
    (searchBills (some "(") stOne).status = 500 := by decide

/-- C8 (amended): the dedicated search without a query parameter answers
400 (a client error, distinct from an empty result), and a present
non-empty query that forms a syntactically valid pattern and matches no
stored bill answers 200 with the empty array; a query forming an invalid
pattern instead surfaces as a server error. -/
theorem search_query_mandatory (st : Store) (q : String) (re : RE) :
    searchBills none st = .badRequest ∧
    (searchBills none st).status = 400 ∧
    (q ≠ "" → parseRE q = some re →
      (∀ b ∈ st.bills, reSearch true re b.Name.toList = false ∧
        reSearch false re b.Mobile.toList = false) →
      searchBills (some q) st = .ok []) := by
  refine ⟨rfl, rfl, ?_⟩
  intro h1 h2 h3
  have h3d : ∀ b ∈ st.bills, reSearch true re b.Name.data = false ∧
      reSearch false re b.Mobile.data = false := h3
  have hnil : st.bills.filter
      (fun b => reSearch true re b.Name.data || reSearch false re b.Mobile.data) = [] :=
    List.filter_eq_nil_iff.2 (fun b hb => by simp [(h3d b hb).1, (h3d b hb).2])
  simp [searchBills, filterBills, h1, h2, hnil, sortByDateDesc, List.insertionSort]

theorem search_query_mandatory_w :
    searchBills none stOne = .badRequest ∧
    searchBills (some "z+") stOne = .ok [] :=
  ⟨(search_query_mandatory stOne "z+"
      (.cat (.cat (.lit 'z') (.star (.lit 'z'))) .eps)).1,
    (search_query_mandatory stOne "z+"
      (.cat (.cat (.lit 'z') (.star (.lit 'z'))) .eps)).2.2
      (by decide) (by decide) (by decide)⟩

/-- C9: a create request answered with an error status — whether by the
handler's own guard or by schema validation at save time — leaves the
stored collection unchanged. -/
theorem create_error_preserves_store (pd : String → Option Int) (now : Int)
    (r : Request) (st : Store) (h : (createBill pd now r st).1.status ≠ 201) :
    (createBill pd now r st).2 = st := by
  unfold createBill at h ⊢
  by_cases h1 : handlerRejects (coerce pd r)
  · simp [h1]
  · by_cases h2 : saveValidate (coerce pd r)
    · exact absurd (by simp [h1, h2, CreateResp.status]) h
    · simp [h1, h2]

theorem create_error_preserves_store_w :
    (createBill pdNone 0 { reqEx with Name := .str "" } stEmpty).2 = stEmpty :=
  create_error_preserves_store pdNone 0 _ stEmpty (by decide)

/-- C10: a Morning (resp. Evening/Rate, which flow through the same
`parseFloat` coercion) given as a string with a valid numeric prefix
followed by non-numeric characters is not rejected as NaN: when the rest of
the request is valid, the create succeeds and stores the numeric prefix as
the value. -/
theorem create_numeric_prefix_coerced (pd : String → Option Int) (now : Int)
    (r : Request) (st : Store) (s : String) (q e rt : ℚ)
    (hm : r.Morning = .str s) (hp : parseFloatStr s = some q) (hq : 0 ≤ q)
    (hname : jsString r.Name ≠ "")
    (hmob : isTenDigits (jsString r.Mobile) = true)
    (hdate : (jsDate pd r.Date).isSome = true)
    (he : parseFloatJS r.Evening = some e) (he0 : 0 ≤ e)
    (hr : parseFloatJS r.Rate = some rt) (hr0 : (1 / 100 : ℚ) ≤ rt) :
    ∃ b st2, createBill pd now r st = (.created b, st2) ∧
      b.Morning = q ∧ st2.bills = st.bills ++ [b] := by
  have hmob2 : jsString r.Mobile ≠ "" := isTenDigits_ne_empty hmob
  have hmorn : parseFloatJS r.Morning = some q := by rw [hm]; exact hp
  have h1 : handlerRejects (coerce pd r) = false := by
    simp [handlerRejects, coerce, hmorn, he, hr, hname, hmob2]
  have h2 : saveValidate (coerce pd r) = true := by
    simp only [saveValidate, coerce, hmorn, he, hr, Option.getD_some,
      Bool.and_eq_true, bne_iff_ne, decide_eq_true_eq]
    exact ⟨⟨⟨⟨⟨hname, hmob⟩, hdate⟩, hq⟩, he0⟩, hr0⟩
  refine ⟨mkBill st.nextId now (coerce pd r),
    ⟨st.bills ++ [mkBill st.nextId now (coerce pd r)], st.nextId + 1⟩,
    ?_, ?_, rfl⟩
  · simp [createBill, h1, h2]
  · simp [mkBill, coerce, hmorn]

theorem create_numeric_prefix_coerced_w :
    ∃ b st2,
      createBill pdNone 0 { reqEx with Morning := .str "2abc" } stEmpty =
        (.created b, st2) ∧
      b.Morning = 2 ∧ st2.bills = stEmpty.bills ++ [b] :=
  create_numeric_prefix_coerced pdNone 0 _ stEmpty "2abc" 2 (3 / 2) 50 rfl
    (by with_unfolding_all decide) (by with_unfolding_all decide)
    (by with_unfolding_all decide) (by with_unfolding_all decide)
    (by with_unfolding_all decide) rfl (by with_unfolding_all decide) rfl
    (by with_unfolding_all decide)

end Milk
